import Mathlib

/-!
A verification development for the Bild PDM backup tool (`bildBackup.py`).

The Python source is shallowly embedded: strings are `List Char` (Python's
`len` counts code points, which this mirrors), the local filesystem is an
association list from paths (lists of segments) to file sizes, HTTP traffic
is an oracle describing what each GET returns, and the mutable statistics
dictionary is reconstructed from a trace of primitive counter updates so
that every intermediate state of a run can be inspected.

Note on the source: the body of `flatten_file_structure` survives at lines
252-277 of `bildBackup.py` (its `def` line is missing, leaving the code dead
inside `download_file`), and `process_files_structure` is invoked at line 354
but defined nowhere in the file.  Definitions taken from that missing method
are marked `Modelled from the spec:` below; everything else is translated
directly from the source.
-/

set_option autoImplicit false
set_option maxRecDepth 4000

namespace BildBackup

/-! ## Filename sanitization (`sanitize_filename`, bildBackup.py lines 155-173) -/

/-- The character class of `re.sub(r'[<>:"/\\|?*]', '_', filename)`.
`Char.ofNat 34` is the double quote. -/
def illegalChar (c : Char) : Bool :=
  c = '<' || c = '>' || c = ':' || c = Char.ofNat 34 || c = '/' ||
  c = '\\' || c = '|' || c = '?' || c = '*'

/-- `re.sub(r'[<>:"/\\|?*]', '_', filename)`: every illegal character becomes
an underscore. -/
def subIllegal (s : List Char) : List Char :=
  s.map (fun c => if illegalChar c then '_' else c)

/-- The strip set of `sanitized.strip('. ')`. -/
def stripSet (c : Char) : Bool := c = '.' || c = ' '

/-- Python `str.strip('. ')`: removes leading and trailing dots and spaces. -/
def pyStrip (s : List Char) : List Char :=
  ((s.dropWhile stripSet).reverse.dropWhile stripSet).reverse

/-- Index of the last character satisfying `f`, or `-1` (Python `str.rfind`). -/
def lastIdxAux (f : Char → Bool) : List Char → Int → Int → Int
  | [], _, acc => acc
  | c :: cs, i, acc => lastIdxAux f cs (i + 1) (if f c then i else acc)

def lastIdx (f : Char → Bool) (p : List Char) : Int := lastIdxAux f p 0 (-1)

/-- Path separators recognised by `os.path.splitext` on either platform.
(The argument `sanitize_filename` passes has already had `/` and `\\`
replaced by `_`, so both platforms agree here.) -/
def sepChar (c : Char) : Bool := c = '/' || c = '\\'

/-- `os.path.splitext`: split off the extension at the last dot, unless every
character of the basename before that dot is itself a dot (leading dots do
not start an extension). -/
def splitext (p : List Char) : List Char × List Char :=
  if lastIdx sepChar p < lastIdx (fun c => c = '.') p then
    if ((p.drop (lastIdx sepChar p + 1).toNat).take
        (lastIdx (fun c => c = '.') p - (lastIdx sepChar p + 1)).toNat).any
        (fun c => c != '.') then
      (p.take (lastIdx (fun c => c = '.') p).toNat,
       p.drop (lastIdx (fun c => c = '.') p).toNat)
    else (p, [])
  else (p, [])

/-- Python slice `xs[:k]` for a possibly negative `k`. -/
def pySliceTo (xs : List Char) (k : Int) : List Char :=
  if 0 ≤ k then xs.take k.toNat else xs.take (xs.length - (-k).toNat)

/-- Lines 169-172 of `sanitize_filename`: when longer than 255 characters,
`name, ext = os.path.splitext(sanitized); sanitized = name[:255-len(ext)] + ext`. -/
def truncate255 (s1 : List Char) : List Char :=
  if 255 < s1.length then
    pySliceTo (splitext s1).1 (255 - ((splitext s1).2.length : Int)) ++ (splitext s1).2
  else s1

/-- `BildAPIClient.sanitize_filename` (bildBackup.py lines 155-173):
substitute illegal characters, strip surrounding dots and spaces, truncate
via `truncate255`; an empty result becomes `'unnamed_file'`. -/
def sanitize_filename (filename : List Char) : List Char :=
  if truncate255 (pyStrip (subIllegal filename)) = [] then "unnamed_file".data
  else truncate255 (pyStrip (subIllegal filename))

/-- String-valued wrapper used when building destination paths. -/
def sanitizeStr (s : String) : String := String.mk (sanitize_filename s.data)

/-! ## File tree flattening (`process_item`, bildBackup.py lines 252-277)

A Python item dictionary is modelled by its four relevant fields: the value
of `'type'` (absent or a string), the `'name'`, and the optional `'children'`
and `'files'` lists. -/

inductive Item where
  | node (ty : Option String) (nm : String) (children : Option (List Item))
      (files : Option (List Item)) : Item

def Item.ty : Item → Option String
  | .node t _ _ _ => t

def Item.nm : Item → String
  | .node _ n _ _ => n

/-- The inner `process_item` of the orphaned `flatten_file_structure` body
(lines 263-272), applied to a list as in lines 274-275: an item of type
`'file'` is emitted; an item of type `'folder'` with a `'children'` key is
recursed into; otherwise an item with a `'files'` key is recursed into;
anything else is dropped. -/
def processList : List Item → List Item
  | [] => []
  | Item.node ty nm ch fls :: rest =>
    (if ty = some "file" then [Item.node ty nm ch fls]
     else
       match ch with
       | some cs =>
         if ty = some "folder" then processList cs
         else
           match fls with
           | some gs => processList gs
           | none => []
       | none =>
         match fls with
         | some gs => processList gs
         | none => []) ++ processList rest

/-- All nodes visited by the traversal of `process_item`, in visiting order
(the traversal never descends below a `'file'`-typed node and never enters
lists of nodes whose parents match no branch). -/
def visitList : List Item → List Item
  | [] => []
  | Item.node ty nm ch fls :: rest =>
    (if ty = some "file" then [Item.node ty nm ch fls]
     else
       match ch with
       | some cs =>
         if ty = some "folder" then Item.node ty nm ch fls :: visitList cs
         else
           match fls with
           | some gs => Item.node ty nm ch fls :: visitList gs
           | none => [Item.node ty nm ch fls]
       | none =>
         match fls with
         | some gs => Item.node ty nm ch fls :: visitList gs
         | none => [Item.node ty nm ch fls]) ++ visitList rest

/-- A flattened file entry: the file's name together with the path segments
accumulated from its ancestor folders. -/
structure FileRecord where
  name : String
  relativePath : List String
deriving DecidableEq

/-- Modelled from the spec: `process_files_structure` is called at
bildBackup.py line 354 but absent from the source, and it is where relative
paths are accumulated.  Spec section 4.1 (`flatten`): depth-first traversal
with the same branch structure as `process_item`, where a folder (including
the defensive `'files'` alternate shape) appends its name as a path segment
and a file is emitted with path equal to its ancestors' names plus its own
name. -/
def flattenRecList (anc : List String) : List Item → List FileRecord
  | [] => []
  | Item.node ty nm ch fls :: rest =>
    (if ty = some "file" then [⟨nm, anc ++ [nm]⟩]
     else
       match ch with
       | some cs =>
         if ty = some "folder" then flattenRecList (anc ++ [nm]) cs
         else
           match fls with
           | some gs => flattenRecList (anc ++ [nm]) gs
           | none => []
       | none =>
         match fls with
         | some gs => flattenRecList (anc ++ [nm]) gs
         | none => []) ++ flattenRecList anc rest

/-! ## The API listing endpoints (`get_projects` lines 61-89,
`get_project_files` lines 91-121)

An HTTP response is either a `requests` exception (transport error, or a
non-2xx status raised by `raise_for_status`) or a decoded JSON payload. -/

inductive JVal where
  | arr (xs : List JVal)
  | obj (fields : List (String × JVal))
  | str (s : String)
  | num (n : Int)
  | null

inductive ApiResp where
  | reqErr
  | ok (v : JVal)

/-- Python `'data' in d` / `d['data']`: first binding of the key. -/
def jlookup : List (String × JVal) → String → Option JVal
  | [], _ => none
  | (k, v) :: rest, key => if k = key then some v else jlookup rest key

/-- `BildAPIClient.get_projects`: on a requests exception return `[]`;
otherwise return a bare list as is, unwrap `'data'` from a dict that has
that key, and return any other payload (including a dict without `'data'`)
unchanged. -/
def get_projects : ApiResp → JVal
  | .reqErr => .arr []
  | .ok v =>
    match v with
    | .arr xs => .arr xs
    | .obj fields =>
      match jlookup fields "data" with
      | some d => d
      | none => .obj fields
    | w => w

/-- `BildAPIClient.get_project_files`: identical dual-shape handling; the
project id only forms the URL. -/
def get_project_files (projectId : String) (r : ApiResp) : JVal :=
  match r with
  | .reqErr => .arr []
  | .ok v =>
    match v with
    | .arr xs => .arr xs
    | .obj fields =>
      match jlookup fields "data" with
      | some d => d
      | none => .obj fields
    | w => w

/-! ## Statistics (`self.stats`, lines 52-59) and the update trace

Each mutation of the stats dictionary in the source is one `Op`; replaying a
trace prefix reconstructs every intermediate state of a run. -/

structure Stats where
  projects_processed : Nat
  files_found : Nat
  files_downloaded : Nat
  files_skipped : Nat
  download_errors : Nat
  total_bytes_downloaded : Nat
deriving DecidableEq

def initStats : Stats := ⟨0, 0, 0, 0, 0, 0⟩

inductive Op where
  | foundAdd (n : Nat)
  | skipInc
  | dlInc
  | errInc
  | bytesAdd (n : Nat)
  | projInc
deriving DecidableEq

def applyOp (s : Stats) : Op → Stats
  | .foundAdd n => { s with files_found := s.files_found + n }
  | .skipInc => { s with files_skipped := s.files_skipped + 1 }
  | .dlInc => { s with files_downloaded := s.files_downloaded + 1 }
  | .errInc => { s with download_errors := s.download_errors + 1 }
  | .bytesAdd n => { s with total_bytes_downloaded := s.total_bytes_downloaded + n }
  | .projInc => { s with projects_processed := s.projects_processed + 1 }

def applyOps (s : Stats) (t : List Op) : Stats := t.foldl applyOp s

/-- Number of per-file outcome increments (skip, download or error) in a
trace. -/
def outcCount : List Op → Nat
  | [] => 0
  | .skipInc :: t => outcCount t + 1
  | .dlInc :: t => outcCount t + 1
  | .errInc :: t => outcCount t + 1
  | _ :: t => outcCount t

/-- Total added to `files_found` by a trace. -/
def foundSum : List Op → Nat
  | [] => 0
  | .foundAdd n :: t => n + foundSum t
  | _ :: t => foundSum t

/-! ## The local filesystem and `download_file` (lines 190-251)

Only regular files matter to the source's behaviour (`exists`, `st_size`,
`unlink`, writes); a filesystem is a map from destination paths to sizes. -/

abbrev Path := List String

abbrev FS := List (Path × Nat)

def fsGet : FS → Path → Option Nat
  | [], _ => none
  | (q, n) :: rest, p => if q = p then some n else fsGet rest p

def fsErase : FS → Path → FS
  | [], _ => []
  | (q, n) :: rest, p => if q = p then fsErase rest p else (q, n) :: fsErase rest p

def fsSet (fs : FS) (p : Path) (n : Nat) : FS := (p, n) :: fsErase fs p

/-- What `requests.get(download_url, stream=True)` does for a given URL:
raise a requests exception up front, stream a full body, or stream some
chunks and then raise a requests exception mid-iteration
(`iter_content` failures are `RequestException`s). -/
inductive Net where
  | reqErr
  | ok (chunks : List Nat)
  | okThenErr (chunks : List Nat)

/-- Branch of `download_file` that terminated the call.  `failedTransport`
is the `except requests.exceptions.RequestException` handler (lines
236-247), `failedOther` the bare `except Exception` handler (lines
248-251); both return `False` to the caller. -/
inductive Outcome where
  | skipped
  | downloaded
  | failedTransport
  | failedOther
deriving DecidableEq

structure DLEnv where
  net : String → Net
  /-- Index of the chunk whose `f.write` raises a non-requests exception
  (for example an `OSError`), if any. -/
  writeFault : String → Option Nat

structure DLRes where
  fs : FS
  ops : List Op
  netCalls : Nat
  outcome : Outcome
deriving DecidableEq

/-- `BildAPIClient.download_file` (lines 190-251).  If the destination
exists with positive size the file is skipped without touching the network.
Otherwise one GET is issued: a requests exception (up front or mid-stream)
counts an error and deletes the destination if it exists, a non-requests
exception during the write counts an error and leaves the partial file, and
a fully streamed body is written and counted as a download. -/
def download_file (env : DLEnv) (url : String) (dest : Path) (fs : FS) : DLRes :=
  if 0 < (fsGet fs dest).getD 0 then
    ⟨fs, [Op.skipInc], 0, Outcome.skipped⟩
  else
    match env.net url with
    | Net.reqErr => ⟨fsErase fs dest, [Op.errInc], 1, Outcome.failedTransport⟩
    | Net.ok chunks =>
      match env.writeFault url with
      | some j =>
        if j < chunks.length then
          ⟨fsSet fs dest ((chunks.take j).sum), [Op.errInc], 1, Outcome.failedOther⟩
        else
          ⟨fsSet fs dest chunks.sum, [Op.dlInc, Op.bytesAdd chunks.sum], 1,
            Outcome.downloaded⟩
      | none =>
        ⟨fsSet fs dest chunks.sum, [Op.dlInc, Op.bytesAdd chunks.sum], 1,
          Outcome.downloaded⟩
    | Net.okThenErr chunks =>
      match env.writeFault url with
      | some j =>
        if j < chunks.length then
          ⟨fsSet fs dest ((chunks.take j).sum), [Op.errInc], 1, Outcome.failedOther⟩
        else
          ⟨fsErase fs dest, [Op.errInc], 1, Outcome.failedTransport⟩
      | none => ⟨fsErase fs dest, [Op.errInc], 1, Outcome.failedTransport⟩

/-- Body size served for `url` when the GET succeeds in full. -/
def netBytes (env : DLEnv) (url : String) : Nat :=
  match env.net url with
  | Net.ok cs => cs.sum
  | _ => 0

/-! ## The orchestrator (`backup_all_projects`, lines 279-376) -/

/-- A project as consumed by the loop at lines 308-312: the result of
`project.get('id','')`, `project.get('name','Unknown Project')` and the
default branch id.  A missing id is the empty string. -/
structure Proj where
  id : String
  name : String
  branchId : String

/-- The `project_info` record built at lines 317-323 (the parts the spec
talks about). -/
structure ProjInfo where
  id : String
  name : String
  branch_id : String
  files : List (String × Bool)
  status : String
deriving DecidableEq

/-- Oracles for everything outside the orchestrator's own logic: the file
listing per project, the released-file lookup yielding a download URL, and
the two ways a project can throw (directory creation at line 333, an
uncaught exception inside the `try` at lines 353-364). -/
structure OEnv where
  dl : DLEnv
  projFiles : String → List Item
  resolveUrl : String → String → String → Option String
  dirFail : String → Option String
  procRaises : String → Option String

structure StepRes where
  fs : FS
  ops : List Op
  outs : List (String × Bool)
deriving DecidableEq

/-- Modelled from the spec: the per-file loop of the missing
`process_files_structure`.  Spec sections 4.2-4.4: for each flattened
record resolve the released download URL (an absent result means "file
unavailable": the outcome is recorded unsuccessful without a download
attempt), otherwise download to the project directory joined with the
record's relative path, every segment sanitized independently; the
recorded boolean is `download_successful`. -/
def processRecs (env : OEnv) (projDir : String) (pid bid : String) :
    FS → List FileRecord → StepRes
  | fs, [] => ⟨fs, [], []⟩
  | fs, r :: rs =>
    match env.resolveUrl pid bid r.name with
    | none =>
      let rest := processRecs env projDir pid bid fs rs
      ⟨rest.fs, rest.ops, (r.name, false) :: rest.outs⟩
    | some url =>
      let res := download_file env.dl url (projDir :: r.relativePath.map sanitizeStr) fs
      let rest := processRecs env projDir pid bid res.fs rs
      ⟨rest.fs, res.ops ++ rest.ops,
        (r.name, decide (res.outcome = Outcome.skipped) ||
          decide (res.outcome = Outcome.downloaded)) :: rest.outs⟩

/-- Modelled from the spec: `process_files_structure` (called at line 354,
missing from the source).  Spec sections 4.1 and 4.4: flatten the listed
tree into records with accumulated relative paths, count them all into
`files_found`, then process each record in order. -/
def process_files_structure (env : OEnv) (projDir : String) (pid bid : String)
    (fs : FS) (items : List Item) : StepRes :=
  let recs := flattenRecList [] items
  let rest := processRecs env projDir pid bid fs recs
  ⟨rest.fs, Op.foundAdd recs.length :: rest.ops, rest.outs⟩

structure PRes where
  fs : FS
  ops : List Op
  info : ProjInfo

/-- One iteration of the project loop (lines 308-372): no id means status
`'error - no ID'`; a directory-creation exception means
`'error - directory creation failed: '` plus the message; an empty file
listing means `'no files'`; an uncaught exception while processing files
means `'error - '` plus the message; otherwise the files are processed,
`projects_processed` is incremented and the status is `'completed'`. -/
def processProject (env : OEnv) (fs : FS) (p : Proj) : PRes :=
  let base : ProjInfo := ⟨p.id, p.name, p.branchId, [], "skipped"⟩
  if p.id = "" then ⟨fs, [], { base with status := "error - no ID" }⟩
  else
    match env.dirFail p.name with
    | some e =>
      ⟨fs, [], { base with status := "error - directory creation failed: " ++ e }⟩
    | none =>
      let files := env.projFiles p.id
      if files.isEmpty then ⟨fs, [], { base with status := "no files" }⟩
      else
        match env.procRaises p.id with
        | some e => ⟨fs, [], { base with status := "error - " ++ e }⟩
        | none =>
          let r := process_files_structure env (sanitizeStr p.name) p.id p.branchId
            fs files
          ⟨r.fs, r.ops ++ [Op.projInc], { base with files := r.outs, status := "completed" }⟩

structure RunRes where
  fs : FS
  ops : List Op
  projects : List ProjInfo

/-- The project loop: every project is processed in order, each appending
exactly one `project_info` to the summary. -/
def runProjects (env : OEnv) (fs : FS) : List Proj → RunRes
  | [] => ⟨fs, [], []⟩
  | p :: ps =>
    let a := processProject env fs p
    let b := runProjects env a.fs ps
    ⟨b.fs, a.ops ++ b.ops, a.info :: b.projects⟩

/-- The `backup_summary` parts the spec talks about: the per-project list
and the final copy of the stats. -/
structure Summary where
  projects : List ProjInfo
  statistics : Stats
deriving DecidableEq

/-- `BildAPIClient.backup_all_projects` for a decoded project list: run the
loop and report the final statistics (rebuilt here by replaying the full
update trace from the all-zero initial stats of `__init__`). -/
def backup_all_projects (env : OEnv) (fs : FS) (projects : List Proj) :
    Summary × RunRes :=
  let r := runProjects env fs projects
  (⟨r.projects, applyOps initStats r.ops⟩, r)

/-! ## Concrete inputs used by individual theorems -/

/-- The mock tree of the end-to-end scenario: two top-level files and one
file nested in a subfolder. -/
def mockTree : List Item :=
  [Item.node (some "file") "f1" none none,
   Item.node (some "file") "f2" none none,
   Item.node (some "folder") "sub" (some [Item.node (some "file") "f3" none none]) none]

/-- Mock API for the end-to-end scenario: project `p1` holds `mockTree`,
everything else is empty; every download URL resolves and serves a 7-byte
body; nothing fails. -/
def env1 : OEnv :=
  { dl := ⟨fun _ => Net.ok [7], fun _ => none⟩,
    projFiles := fun pid => if pid = "p1" then mockTree else [],
    resolveUrl := fun _ _ n => some ("url-" ++ n),
    dirFail := fun _ => none,
    procRaises := fun _ => none }

def projs1 : List Proj := [⟨"p1", "P1", "b1"⟩, ⟨"p2", "P2", "b2"⟩]

/-- A name whose extension alone exceeds 255 characters. -/
def c6bad : List Char := 'a' :: 'b' :: '.' :: List.replicate 300 'x'

/-- A 304-character name with a short extension. -/
def c6w : List Char := List.replicate 300 'a' ++ ('.' :: ['t', 'x', 't'])

/-- Download environment serving an empty body: the download succeeds but
writes zero bytes. -/
def c5cexEnv : DLEnv := ⟨fun _ => Net.ok [], fun _ => none⟩

/-- Download environment serving one 5-byte chunk. -/
def c5wEnv : DLEnv := ⟨fun _ => Net.ok [5], fun _ => none⟩

/-- Download environment whose second chunk write raises a non-requests
exception (an `OSError` during `f.write`). -/
def c4cexEnv : DLEnv := ⟨fun _ => Net.ok [5, 5], fun _ => some 1⟩

/-- Download environment whose GET raises a requests exception. -/
def c4wEnv : DLEnv := ⟨fun _ => Net.reqErr, fun _ => none⟩

def dfltProj : Proj := ⟨"", "", ""⟩

def dfltInfo : ProjInfo := ⟨"", "", "", [], ""⟩

/-- Orchestrator environment in which project name `Bad` fails directory
creation and project id `p3` raises while processing its one file. -/
def c8wEnv : OEnv :=
  { dl := ⟨fun _ => Net.ok [1], fun _ => none⟩,
    projFiles := fun pid => if pid = "p3" then [Item.node (some "file") "f" none none]
      else [],
    resolveUrl := fun _ _ _ => none,
    dirFail := fun nm => if nm = "Bad" then some "boom" else none,
    procRaises := fun pid => if pid = "p3" then some "crash" else none }

def c8wProjs : List Proj := [⟨"", "A", "b"⟩, ⟨"p2", "Bad", "b"⟩, ⟨"p3", "C", "b"⟩]

/-- One project with one file served as a 4-byte body. -/
def c2wEnv : OEnv :=
  { dl := ⟨fun _ => Net.ok [4], fun _ => none⟩,
    projFiles := fun pid => if pid = "q1" then [Item.node (some "file") "g" none none]
      else [],
    resolveUrl := fun _ _ _ => some "u",
    dirFail := fun _ => none,
    procRaises := fun _ => none }

def c2wProjs : List Proj := [⟨"q1", "Q1", "b"⟩]

/-! ## Helper lemmas about sanitization -/

theorem mem_subIllegal {c : Char} {s : List Char} (h : c ∈ subIllegal s) :
    illegalChar c = false := by
  rcases List.mem_map.1 h with ⟨x, _, rfl⟩
  by_cases hx : illegalChar x = true
  · rw [if_pos hx]; decide
  · rw [if_neg hx]; simpa using hx

theorem mem_pyStrip {c : Char} {s : List Char} (h : c ∈ pyStrip s) : c ∈ s := by
  unfold pyStrip at h
  rw [List.mem_reverse] at h
  have h1 : c ∈ (s.dropWhile stripSet).reverse :=
    List.Sublist.subset (List.dropWhile_sublist _) h
  rw [List.mem_reverse] at h1
  exact List.Sublist.subset (List.dropWhile_sublist _) h1

theorem splitext_fst_subset (p : List Char) : (splitext p).1 ⊆ p := by
  unfold splitext
  split
  · split
    · exact List.take_subset _ _
    · exact fun _ h => h
  · exact fun _ h => h

theorem splitext_snd_suffix (p : List Char) : (splitext p).2 <:+ p := by
  unfold splitext
  split
  · split
    · exact List.drop_suffix _ _
    · exact List.nil_suffix
  · exact List.nil_suffix

theorem pySliceTo_subset (xs : List Char) (k : Int) : pySliceTo xs k ⊆ xs := by
  unfold pySliceTo
  split
  · exact List.take_subset _ _
  · exact List.take_subset _ _

theorem mem_truncate255 {c : Char} {s1 : List Char} (h : c ∈ truncate255 s1) :
    c ∈ s1 := by
  unfold truncate255 at h
  split at h
  · rcases List.mem_append.1 h with h1 | h1
    · exact splitext_fst_subset s1 (pySliceTo_subset _ _ h1)
    · exact (splitext_snd_suffix s1).subset h1
  · exact h

theorem mem_sanitize {c : Char} {s : List Char} (h : c ∈ sanitize_filename s) :
    c ∈ subIllegal s ∨ c ∈ "unnamed_file".data := by
  unfold sanitize_filename at h
  split at h
  · exact Or.inr h
  · exact Or.inl (mem_pyStrip (mem_truncate255 h))

theorem sanitize_ne_nil (s : List Char) : sanitize_filename s ≠ [] := by
  unfold sanitize_filename
  split
  · decide
  · assumption

theorem truncate255_length {s1 : List Char}
    (h2 : (splitext s1).2.length ≤ 255) : (truncate255 s1).length ≤ max s1.length 255 := by
  unfold truncate255
  split
  · rw [List.length_append]
    have hslice : pySliceTo (splitext s1).1 (255 - ((splitext s1).2.length : Int)) =
        (splitext s1).1.take (255 - (splitext s1).2.length) := by
      unfold pySliceTo
      rw [if_pos (by omega)]
      congr 1
      omega
    rw [hslice]
    have := List.length_take_le (255 - (splitext s1).2.length) (splitext s1).1
    omega
  · omega

theorem truncate255_ext_suffix {s1 : List Char} :
    (splitext s1).2 <:+ truncate255 s1 := by
  unfold truncate255
  split
  · exact List.suffix_append _ _
  · exact splitext_snd_suffix s1

/-! ## C6 and C7 -/

/-- C6 (counterexample): the name `ab.` followed by 300 `x`s is 303
characters long, yet `sanitize_filename` leaves it at 301 characters,
because `os.path.splitext` makes the entire 301-character tail the
extension and `name[:255-len(ext)]` slices with a negative bound.  This
refutes the claim that every name longer than 255 bytes sanitizes to at
most 255 bytes. -/
theorem C6_counterexample :
    255 < c6bad.length ∧ ¬ (sanitize_filename c6bad).length ≤ 255 := by decide

/-- C6 (amended): for every name longer than 255 characters whose sanitized
form's extension is at most 255 characters, the output of
`sanitize_filename` has length at most 255, and that extension is preserved
as a suffix of the output whenever it is present.  (The code measures
`len`, that is characters, not bytes; and when trailing dots or spaces are
stripped the preserved extension is that of the stripped form.) -/
theorem C6_sanitize_truncates (s : List Char)
    (h1 : 255 < s.length)
    (h2 : (splitext (pyStrip (subIllegal s))).2.length ≤ 255) :
    (sanitize_filename s).length ≤ 255 ∧
      ((splitext (pyStrip (subIllegal s))).2 ≠ [] →
        (splitext (pyStrip (subIllegal s))).2 <:+ sanitize_filename s) := by
  unfold sanitize_filename
  split
  · refine ⟨by decide, fun hne => ?_⟩
    exfalso
    exact hne (List.suffix_nil.mp (by
      have he : (splitext (pyStrip (subIllegal s))).2 <:+
          truncate255 (pyStrip (subIllegal s)) := truncate255_ext_suffix
      rwa [‹truncate255 (pyStrip (subIllegal s)) = []›] at he))
  · refine ⟨?_, fun _ => truncate255_ext_suffix⟩
    have hlen := truncate255_length h2
    have hstrip : (pyStrip (subIllegal s)).length ≤ 255 ∨
        255 < (pyStrip (subIllegal s)).length := by omega
    rcases hstrip with hs | hs
    · omega
    · unfold truncate255 at *
      rw [if_pos hs] at *
      rw [List.length_append]
      have hslice : pySliceTo (splitext (pyStrip (subIllegal s))).1
          (255 - ((splitext (pyStrip (subIllegal s))).2.length : Int)) =
          (splitext (pyStrip (subIllegal s))).1.take
            (255 - (splitext (pyStrip (subIllegal s))).2.length) := by
        unfold pySliceTo
        rw [if_pos (by omega)]
        congr 1
        omega
      rw [hslice]
      have := List.length_take_le (255 - (splitext (pyStrip (subIllegal s))).2.length)
        (splitext (pyStrip (subIllegal s))).1
      omega

/-- C6 (witness): a 304-character name ending in `.txt` sanitizes to at
most 255 characters with the extension preserved. -/
theorem C6_witness :
    255 < c6w.length ∧
      ((sanitize_filename c6w).length ≤ 255 ∧
        ((splitext (pyStrip (subIllegal c6w))).2 ≠ [] →
          (splitext (pyStrip (subIllegal c6w))).2 <:+ sanitize_filename c6w)) :=
  ⟨by decide, C6_sanitize_truncates c6w (by decide) (by decide)⟩

/-- C7: for every name containing a character from the illegal set
`< > : " / \ | ? *`, the output of `sanitize_filename` contains none of
those characters and is non-empty. -/
theorem C7_sanitize_illegal (s : List Char)
    (h : ∃ c ∈ s, illegalChar c = true) :
    (∀ c ∈ sanitize_filename s, illegalChar c = false) ∧
      sanitize_filename s ≠ [] := by
  refine ⟨fun c hc => ?_, sanitize_ne_nil s⟩
  rcases mem_sanitize hc with h1 | h1
  · exact mem_subIllegal h1
  · have hu : ∀ c ∈ "unnamed_file".data, illegalChar c = false := by decide
    exact hu c h1

/-- C7 (witness): `a<b` contains an illegal character; its sanitized form
has none and is non-empty. -/
theorem C7_witness :
    (∀ c ∈ sanitize_filename ('a' :: '<' :: ['b']), illegalChar c = false) ∧
      sanitize_filename ('a' :: '<' :: ['b']) ≠ [] :=
  C7_sanitize_illegal ('a' :: '<' :: ['b']) ⟨'<', by decide⟩

/-! ## C9 and C10 -/

/-- C9: a requests exception (transport error or non-2xx status) makes
`get_projects` and `get_project_files` return the empty list, and a run
over the resulting empty project list completes with an empty per-project
summary rather than failing. -/
theorem C9_empty_on_failure :
    get_projects ApiResp.reqErr = JVal.arr [] ∧
      (∀ pid, get_project_files pid ApiResp.reqErr = JVal.arr []) ∧
      (∀ env fs, (backup_all_projects env fs []).1.projects = [] ∧
        (backup_all_projects env fs []).1.statistics = initStats) :=
  ⟨rfl, fun _ => rfl, fun _ _ => ⟨rfl, rfl⟩⟩

/-- C10: a successful response whose JSON payload is a dict without a
`'data'` key is returned unchanged by both listing helpers — a third
response shape, neither a bare array nor an unwrapped envelope. -/
theorem C10_dict_passthrough (fields : List (String × JVal)) (pid : String)
    (h : jlookup fields "data" = none) :
    get_projects (ApiResp.ok (JVal.obj fields)) = JVal.obj fields ∧
      get_project_files pid (ApiResp.ok (JVal.obj fields)) = JVal.obj fields := by
  unfold get_projects get_project_files
  dsimp only
  rw [h]
  exact ⟨rfl, rfl⟩

/-- C10 (witness): the dict `{"x": null}` has no `'data'` key and passes
through both helpers unchanged. -/
theorem C10_witness :
    get_projects (ApiResp.ok (JVal.obj [("x", JVal.null)])) =
        JVal.obj [("x", JVal.null)] ∧
      get_project_files "p" (ApiResp.ok (JVal.obj [("x", JVal.null)])) =
        JVal.obj [("x", JVal.null)] :=
  C10_dict_passthrough [("x", JVal.null)] "p" (by
    unfold jlookup
    rw [if_neg (by decide)]
    rfl)

/-! ## Helper lemmas about the filesystem model and `download_file` -/

theorem fsGet_fsErase (fs : FS) (p : Path) : fsGet (fsErase fs p) p = none := by
  induction fs with
  | nil => rfl
  | cons e rest ih =>
    obtain ⟨q, n⟩ := e
    unfold fsErase
    by_cases hq : q = p
    · rw [if_pos hq]; exact ih
    · rw [if_neg hq]; unfold fsGet; rw [if_neg hq]; exact ih

theorem fsGet_fsSet (fs : FS) (p : Path) (n : Nat) : fsGet (fsSet fs p n) p = some n := by
  unfold fsSet fsGet
  rw [if_pos rfl]

/-! ## C4: cleanup after failed downloads -/

/-- C4 (counterexample): a non-requests exception during the chunk write
(modelled as a write fault at chunk 1 of a two-chunk body) makes
`download_file` report a failure, yet the 5 bytes already written remain on
disk — the bare `except Exception` handler at lines 248-251 performs no
cleanup.  This refutes the claim that after every failed download no file
exists at the destination. -/
theorem C4_counterexample :
    (download_file c4cexEnv "u" ["d"] []).outcome = Outcome.failedOther ∧
      fsGet (download_file c4cexEnv "u" ["d"] []).fs ["d"] = some 5 := by decide

/-- C4 (amended): for every download that fails with a requests exception
(transport error or non-2xx status, up front or mid-stream — the handler at
lines 236-247), no file exists at the destination path afterwards;
a non-requests exception during the write is not covered. -/
theorem C4_transport_failure_cleanup (env : DLEnv) (url : String) (dest : Path)
    (fs : FS) (h : (download_file env url dest fs).outcome = Outcome.failedTransport) :
    fsGet (download_file env url dest fs).fs dest = none := by
  by_cases h0 : 0 < (fsGet fs dest).getD 0
  · simp [download_file, h0] at h
  · cases hnet : env.net url with
    | reqErr =>
      simp [download_file, h0, hnet]
      exact fsGet_fsErase fs dest
    | ok chunks =>
      cases hwf : env.writeFault url with
      | some j =>
        by_cases hj : j < chunks.length
        · simp [download_file, h0, hnet, hwf, hj] at h
        · simp [download_file, h0, hnet, hwf, hj] at h
      | none => simp [download_file, h0, hnet, hwf] at h
    | okThenErr chunks =>
      cases hwf : env.writeFault url with
      | some j =>
        by_cases hj : j < chunks.length
        · simp [download_file, h0, hnet, hwf, hj] at h
        · simp [download_file, h0, hnet, hwf, hj]
          exact fsGet_fsErase fs dest
      | none =>
        simp [download_file, h0, hnet, hwf]
        exact fsGet_fsErase fs dest

/-- C4 (witness): a GET that raises deletes even a pre-existing empty file
at the destination and leaves nothing behind. -/
theorem C4_witness :
    (download_file c4wEnv "u" ["d"] [(["d"], 0)]).outcome = Outcome.failedTransport ∧
      fsGet (download_file c4wEnv "u" ["d"] [(["d"], 0)]).fs ["d"] = none :=
  ⟨by decide, C4_transport_failure_cleanup c4wEnv "u" ["d"] [(["d"], 0)] (by decide)⟩

/-! ## C5: the skip-if-exists check -/

/-- C5 (counterexample): a successful download of an empty body leaves a
zero-size file, so the second call against the same destination is not a
skip: it issues another network request and downloads again.  This refutes
the claim that the second of two calls after any successful first download
is a skip with zero network requests. -/
theorem C5_counterexample :
    (download_file c5cexEnv "u" ["d"] []).outcome = Outcome.downloaded ∧
      (download_file c5cexEnv "u" ["d"]
        (download_file c5cexEnv "u" ["d"] []).fs).netCalls = 1 ∧
      (download_file c5cexEnv "u" ["d"]
        (download_file c5cexEnv "u" ["d"] []).fs).outcome = Outcome.downloaded := by
  decide

theorem download_downloaded_fs (env : DLEnv) (url : String) (dest : Path) (fs : FS)
    (h : (download_file env url dest fs).outcome = Outcome.downloaded) :
    (download_file env url dest fs).fs = fsSet fs dest (netBytes env url) := by
  by_cases h0 : 0 < (fsGet fs dest).getD 0
  · simp [download_file, h0] at h
  · cases hnet : env.net url with
    | reqErr => simp [download_file, h0, hnet] at h
    | ok chunks =>
      cases hwf : env.writeFault url with
      | some j =>
        by_cases hj : j < chunks.length
        · simp [download_file, h0, hnet, hwf, hj] at h
        · simp [download_file, h0, hnet, hwf, hj, netBytes]
      | none => simp [download_file, h0, hnet, hwf, netBytes]
    | okThenErr chunks =>
      cases hwf : env.writeFault url with
      | some j =>
        by_cases hj : j < chunks.length
        · simp [download_file, h0, hnet, hwf, hj] at h
        · simp [download_file, h0, hnet, hwf, hj] at h
      | none => simp [download_file, h0, hnet, hwf] at h

/-- C5 (amended): a destination that already exists with non-zero size is
skipped with zero network requests and an untouched filesystem; hence the
second of two calls against the same destination, after a successful first
download whose body was non-empty, is a skip with zero network requests. -/
theorem C5_skip_existing :
    (∀ (env : DLEnv) (url : String) (dest : Path) (fs : FS) (n : Nat),
        fsGet fs dest = some n → 0 < n →
        download_file env url dest fs = ⟨fs, [Op.skipInc], 0, Outcome.skipped⟩) ∧
      (∀ (env env2 : DLEnv) (url url2 : String) (dest : Path) (fs : FS),
        (download_file env url dest fs).outcome = Outcome.downloaded →
        0 < netBytes env url →
        (download_file env2 url2 dest (download_file env url dest fs).fs).netCalls = 0 ∧
          (download_file env2 url2 dest (download_file env url dest fs).fs).outcome =
            Outcome.skipped) := by
  have part1 : ∀ (env : DLEnv) (url : String) (dest : Path) (fs : FS) (n : Nat),
      fsGet fs dest = some n → 0 < n →
      download_file env url dest fs = ⟨fs, [Op.skipInc], 0, Outcome.skipped⟩ := by
    intro env url dest fs n h hn
    unfold download_file
    rw [if_pos (by rw [h]; exact hn)]
  refine ⟨part1, fun env env2 url url2 dest fs hdl hb => ?_⟩
  have hfs := download_downloaded_fs env url dest fs hdl
  rw [hfs, part1 env2 url2 dest _ (netBytes env url) (fsGet_fsSet fs dest _) hb]
  exact ⟨rfl, rfl⟩

/-- C5 (witness): a destination holding 3 bytes is skipped without a network
call, and after a first download of a 5-byte body the second call against
the same destination is a skip with zero network requests. -/
theorem C5_witness :
    download_file c5wEnv "u" ["d"] [(["d"], 3)] =
        ⟨[(["d"], 3)], [Op.skipInc], 0, Outcome.skipped⟩ ∧
      (download_file c5wEnv "u" ["e"]
        (download_file c5wEnv "u" ["e"] []).fs).netCalls = 0 ∧
      (download_file c5wEnv "u" ["e"]
        (download_file c5wEnv "u" ["e"] []).fs).outcome = Outcome.skipped :=
  ⟨C5_skip_existing.1 c5wEnv "u" ["d"] [(["d"], 3)] 3 (by decide) (by decide),
   C5_skip_existing.2 c5wEnv c5wEnv "u" "u" ["e"] [] (by decide) (by decide)⟩

/-! ## C3: flattening -/

theorem processList_eq_filter (ts : List Item) :
    processList ts = (visitList ts).filter (fun i => decide (i.ty = some "file")) := by
  induction ts using processList.induct with
  | case1 => simp [processList, visitList]
  | case2 ty nm ch fls rest ihc ihr =>
    by_cases hf : ty = some "file"
    · cases ch <;> cases fls <;>
        simp_all [processList, visitList, Item.ty]
    · cases ch with
      | none =>
        cases fls with
        | none => simp_all [processList, visitList, Item.ty]
        | some gs => simp_all [processList, visitList, Item.ty]
      | some cs =>
        by_cases hfo : ty = some "folder"
        · cases fls <;> simp_all [processList, visitList, Item.ty]
        · cases fls <;> simp_all [processList, visitList, Item.ty]

theorem flattenRecList_names (ts : List Item) :
    ∀ anc, (flattenRecList anc ts).map FileRecord.name = (processList ts).map Item.nm := by
  induction ts using processList.induct with
  | case1 => intro anc; simp [processList, flattenRecList]
  | case2 ty nm ch fls rest ihc ihr =>
    intro anc
    by_cases hf : ty = some "file"
    · cases ch <;> cases fls <;>
        simp_all [processList, flattenRecList, Item.nm]
    · cases ch with
      | none =>
        cases fls with
        | none => simp_all [processList, flattenRecList, Item.nm]
        | some gs => simp_all [processList, flattenRecList, Item.nm]
      | some cs =>
        by_cases hfo : ty = some "folder"
        · cases fls <;> simp_all [processList, flattenRecList, Item.nm]
        · cases fls <;> simp_all [processList, flattenRecList, Item.nm]

/-- C3: the source traversal (`process_item`) emits exactly the
`'file'`-typed nodes it visits, in depth-first visiting order; the
path-accumulating flatten produces exactly one record per emitted node with
the same names in the same order; a file node's record carries its
ancestors' folder names plus its own name, and a folder node passes its
name down as a path segment while concatenating its children's records
before its later siblings'.  Determinism and termination hold by
construction: the traversal is a total function of the tree (its
termination measure is checked when it is defined), so flattening the same
tree twice yields the same output. -/
theorem C3_flatten_depth_first :
    ∀ (anc : List String) (ts : List Item) (nm : String) (cs : List Item)
      (ch fls : Option (List Item)),
      processList ts = (visitList ts).filter (fun i => decide (i.ty = some "file")) ∧
      (flattenRecList anc ts).map FileRecord.name = (processList ts).map Item.nm ∧
      flattenRecList anc (Item.node (some "file") nm ch fls :: ts) =
        ⟨nm, anc ++ [nm]⟩ :: flattenRecList anc ts ∧
      flattenRecList anc (Item.node (some "folder") nm (some cs) fls :: ts) =
        flattenRecList (anc ++ [nm]) cs ++ flattenRecList anc ts :=
  fun anc ts nm cs ch fls =>
    ⟨processList_eq_filter ts, flattenRecList_names ts anc,
     by rw [flattenRecList.eq_def]; simp,
     by rw [flattenRecList.eq_def]; simp⟩

/-! ## C1: the end-to-end scenario -/

/-- C1: against the mock API with 2 projects — `P1` holding files `f1`,
`f2` and `sub/f3`, `P2` holding none — a run produces statistics
`files_found = 3`, `files_downloaded = 3`, `files_skipped = 0`,
`download_errors = 0`, per-project statuses `completed` and `no files`
(the code's spellings of the spec's `completed`/`no_files`), and leaves
the three files on disk at their expected relative paths. -/
theorem C1_end_to_end :
    (backup_all_projects env1 [] projs1).1.statistics.files_found = 3 ∧
      (backup_all_projects env1 [] projs1).1.statistics.files_downloaded = 3 ∧
      (backup_all_projects env1 [] projs1).1.statistics.files_skipped = 0 ∧
      (backup_all_projects env1 [] projs1).1.statistics.download_errors = 0 ∧
      (backup_all_projects env1 [] projs1).1.projects.map ProjInfo.status =
        ["completed", "no files"] ∧
      fsGet (backup_all_projects env1 [] projs1).2.fs ["P1", "f1"] = some 7 ∧
      fsGet (backup_all_projects env1 [] projs1).2.fs ["P1", "f2"] = some 7 ∧
      fsGet (backup_all_projects env1 [] projs1).2.fs ["P1", "sub", "f3"] = some 7 := by
  simp [backup_all_projects, runProjects, processProject, process_files_structure,
    processRecs, download_file, flattenRecList, mockTree, env1, projs1,
    sanitizeStr, sanitize_filename, truncate255, pyStrip, subIllegal, splitext,
    lastIdx, lastIdxAux, pySliceTo, stripSet, illegalChar, sepChar,
    fsSet, fsErase, fsGet, netBytes, applyOps, applyOp, initStats]

/-! ## C8: per-project error isolation -/

theorem runProjects_proj_length (env : OEnv) (fs : FS) (ps : List Proj) :
    (runProjects env fs ps).projects.length = ps.length := by
  induction ps generalizing fs with
  | nil => rfl
  | cons p ps ih => simp [runProjects, ih]

theorem runProjects_getD (env : OEnv) :
    ∀ (ps : List Proj) (fs : FS) (i : Nat), i < ps.length →
      ∃ fs0, (runProjects env fs ps).projects.getD i dfltInfo =
        (processProject env fs0 (ps.getD i dfltProj)).info := by
  intro ps
  induction ps with
  | nil => intro fs i h; exact absurd h (by simp)
  | cons p ps ih =>
    intro fs i h
    cases i with
    | zero => exact ⟨fs, by simp [runProjects]⟩
    | succ i =>
      obtain ⟨fs0, hf⟩ := ih (processProject env fs p).fs i (by simpa using h)
      exact ⟨fs0, by simpa [runProjects] using hf⟩

theorem processProject_status_noid (env : OEnv) (fs : FS) (p : Proj) (h : p.id = "") :
    (processProject env fs p).info.status = "error - no ID" := by
  simp [processProject, h]

theorem processProject_status_dirfail (env : OEnv) (fs : FS) (p : Proj) (e : String)
    (h : ¬ p.id = "") (hd : env.dirFail p.name = some e) :
    (processProject env fs p).info.status = "error - directory creation failed: " ++ e := by
  simp [processProject, h, hd]

theorem processProject_status_raise (env : OEnv) (fs : FS) (p : Proj) (e : String)
    (h : ¬ p.id = "") (hd : env.dirFail p.name = none)
    (hf : (env.projFiles p.id).isEmpty = false) (hr : env.procRaises p.id = some e) :
    (processProject env fs p).info.status = "error - " ++ e := by
  simp [processProject, h, hd, hf, hr]

/-- C8: every project — including every one after a failing project — gets
exactly one summary entry (the lengths agree for all inputs, so no
per-project failure escapes the loop), and the entry of a project with no
id, a failing directory creation, or an uncaught file-processing exception
carries the corresponding error status with its message. -/
theorem C8_per_project_isolation (env : OEnv) (fs : FS) (ps : List Proj) (i : Nat)
    (hi : i < ps.length) :
    (runProjects env fs ps).projects.length = ps.length ∧
      ((ps.getD i dfltProj).id = "" →
        ((runProjects env fs ps).projects.getD i dfltInfo).status = "error - no ID") ∧
      (∀ e, ¬ (ps.getD i dfltProj).id = "" →
        env.dirFail (ps.getD i dfltProj).name = some e →
        ((runProjects env fs ps).projects.getD i dfltInfo).status =
          "error - directory creation failed: " ++ e) ∧
      (∀ e, ¬ (ps.getD i dfltProj).id = "" →
        env.dirFail (ps.getD i dfltProj).name = none →
        (env.projFiles (ps.getD i dfltProj).id).isEmpty = false →
        env.procRaises (ps.getD i dfltProj).id = some e →
        ((runProjects env fs ps).projects.getD i dfltInfo).status = "error - " ++ e) := by
  obtain ⟨fs0, hf⟩ := runProjects_getD env ps fs i hi
  refine ⟨runProjects_proj_length env fs ps, fun h => ?_, fun e h hd => ?_,
    fun e h hd hfi hr => ?_⟩
  · rw [hf]; exact processProject_status_noid env fs0 _ h
  · rw [hf]; exact processProject_status_dirfail env fs0 _ e h hd
  · rw [hf]; exact processProject_status_raise env fs0 _ e h hd hfi hr

/-- C8 (witness): in a run over an id-less project, a project whose
directory creation throws `boom`, and a project whose file processing
raises `crash`, all three summary entries exist and carry the three error
statuses. -/
theorem C8_witness :
    (runProjects c8wEnv [] c8wProjs).projects.length = 3 ∧
      ((runProjects c8wEnv [] c8wProjs).projects.getD 0 dfltInfo).status =
        "error - no ID" ∧
      ((runProjects c8wEnv [] c8wProjs).projects.getD 1 dfltInfo).status =
        "error - directory creation failed: boom" ∧
      ((runProjects c8wEnv [] c8wProjs).projects.getD 2 dfltInfo).status =
        "error - crash" :=
  ⟨(C8_per_project_isolation c8wEnv [] c8wProjs 0 (by decide)).1,
   (C8_per_project_isolation c8wEnv [] c8wProjs 0 (by decide)).2.1 (by decide),
   (C8_per_project_isolation c8wEnv [] c8wProjs 1 (by decide)).2.2.1 "boom"
     (by decide) (by decide),
   (C8_per_project_isolation c8wEnv [] c8wProjs 2 (by decide)).2.2.2 "crash"
     (by decide) (by decide) (by decide) (by decide)⟩

/-! ## C2: the statistics invariant

Every intermediate statistics state of a run is `applyOps initStats tr` for
some prefix `tr` of the run's update trace; the invariant is proved for all
such prefixes. -/

theorem prefix_append_cases {α : Type _} {t a b : List α} (h : t <+: a ++ b) :
    t <+: a ∨ ∃ u, t = a ++ u ∧ u <+: b := by
  induction a generalizing t with
  | nil => exact Or.inr ⟨t, rfl, by simpa using h⟩
  | cons x a ih =>
    cases t with
    | nil => exact Or.inl (List.nil_prefix)
    | cons y t =>
      obtain ⟨r, hr⟩ := h
      have hr2 : y :: (t ++ r) = x :: (a ++ b) := by simpa using hr
      injection hr2 with hz ht
      subst hz
      rcases ih (⟨r, ht⟩ : t <+: a ++ b) with h3 | ⟨u, hu1, hu2⟩
      · obtain ⟨w, hw⟩ := h3
        exact Or.inl ⟨w, by rw [List.cons_append, hw]⟩
      · exact Or.inr ⟨u, by rw [hu1, List.cons_append], hu2⟩

theorem prefix_singleton {α : Type _} {u : List α} {x : α} (h : u <+: [x]) :
    u = [] ∨ u = [x] := by
  cases u with
  | nil => exact Or.inl rfl
  | cons y t =>
    obtain ⟨r, hr⟩ := h
    have hr2 : y :: (t ++ r) = [x] := by simpa using hr
    injection hr2 with hz ht
    rcases List.append_eq_nil.mp ht with ⟨rfl, -⟩
    exact Or.inr (by rw [hz])

theorem outcCount_append (a b : List Op) :
    outcCount (a ++ b) = outcCount a + outcCount b := by
  induction a with
  | nil => simp [outcCount]
  | cons op t ih => cases op <;> simp [outcCount, ih] <;> omega

theorem foundSum_append (a b : List Op) :
    foundSum (a ++ b) = foundSum a + foundSum b := by
  induction a with
  | nil => simp [foundSum]
  | cons op t ih => cases op <;> simp [foundSum, ih] <;> omega

theorem outcCount_le_of_prefix {t l : List Op} (h : t <+: l) :
    outcCount t ≤ outcCount l := by
  obtain ⟨u, rfl⟩ := h
  rw [outcCount_append]
  omega

theorem foundSum_eq_zero_of_prefix {t l : List Op} (h : t <+: l)
    (hl : foundSum l = 0) : foundSum t = 0 := by
  obtain ⟨u, rfl⟩ := h
  rw [foundSum_append] at hl
  omega

/-- Every call of `download_file` performs exactly one outcome increment
(skip, download or error) and never touches `files_found`. -/
theorem download_ops_counts (env : DLEnv) (url : String) (dest : Path) (fs : FS) :
    outcCount (download_file env url dest fs).ops = 1 ∧
      foundSum (download_file env url dest fs).ops = 0 := by
  unfold download_file
  repeat' split
  all_goals simp [outcCount, foundSum]

theorem processRecs_ops_bound (env : OEnv) (dir pid bid : String) :
    ∀ (rs : List FileRecord) (fs : FS) (pre : List Op),
      pre <+: (processRecs env dir pid bid fs rs).ops →
      outcCount pre ≤ rs.length ∧ foundSum pre = 0 := by
  intro rs
  induction rs with
  | nil =>
    intro fs pre h
    rw [show (processRecs env dir pid bid fs []).ops = [] from rfl,
      List.prefix_nil] at h
    subst h
    simp [outcCount, foundSum]
  | cons r rs ih =>
    intro fs pre h
    cases hres : env.resolveUrl pid bid r.name with
    | none =>
      have hops : (processRecs env dir pid bid fs (r :: rs)).ops =
          (processRecs env dir pid bid fs rs).ops := by
        simp [processRecs, hres]
      rw [hops] at h
      have h2 := ih fs pre h
      exact ⟨Nat.le_succ_of_le h2.1, h2.2⟩
    | some url =>
      have hops : (processRecs env dir pid bid fs (r :: rs)).ops =
          (download_file env.dl url (dir :: r.relativePath.map sanitizeStr) fs).ops ++
            (processRecs env dir pid bid
              (download_file env.dl url (dir :: r.relativePath.map sanitizeStr) fs).fs
              rs).ops := by
        simp [processRecs, hres]
      rw [hops] at h
      have hd := download_ops_counts env.dl url (dir :: r.relativePath.map sanitizeStr) fs
      rcases prefix_append_cases h with h1 | ⟨u, rfl, hu⟩
      · have hle := outcCount_le_of_prefix h1
        have hz := foundSum_eq_zero_of_prefix h1 hd.2
        exact ⟨by simp [List.length_cons]; omega, hz⟩
      · have h2 := ih _ u hu
        rw [outcCount_append, foundSum_append]
        exact ⟨by simp [List.length_cons]; omega, by omega⟩

/-- Each per-project trace keeps every prefix balanced: the `files_found`
increment for the project's flattened records precedes its per-file outcome
increments, and there are at most as many of those as records. -/
theorem processProject_ops_bal (env : OEnv) (fs : FS) (p : Proj) :
    ∀ pre, pre <+: (processProject env fs p).ops → outcCount pre ≤ foundSum pre := by
  intro pre h
  by_cases h1 : p.id = ""
  · rw [show (processProject env fs p).ops = [] from by simp [processProject, h1],
      List.prefix_nil] at h
    subst h
    simp [outcCount, foundSum]
  · cases hd : env.dirFail p.name with
    | some e =>
      rw [show (processProject env fs p).ops = [] from by
        simp [processProject, h1, hd], List.prefix_nil] at h
      subst h
      simp [outcCount, foundSum]
    | none =>
      by_cases hfe : (env.projFiles p.id).isEmpty
      · rw [show (processProject env fs p).ops = [] from by
          simp [processProject, h1, hd, hfe], List.prefix_nil] at h
        subst h
        simp [outcCount, foundSum]
      · cases hr : env.procRaises p.id with
        | some e =>
          rw [show (processProject env fs p).ops = [] from by
            simp [processProject, h1, hd, hfe, hr], List.prefix_nil] at h
          subst h
          simp [outcCount, foundSum]
        | none =>
          have hops : (processProject env fs p).ops =
              Op.foundAdd (flattenRecList [] (env.projFiles p.id)).length ::
                ((processRecs env (sanitizeStr p.name) p.id p.branchId fs
                  (flattenRecList [] (env.projFiles p.id))).ops ++ [Op.projInc]) := by
            simp [processProject, h1, hd, hfe, hr, process_files_structure]
          rw [hops] at h
          cases pre with
          | nil => simp [outcCount, foundSum]
          | cons z pre =>
            obtain ⟨r2, hr2⟩ := h
            have hr3 : z :: (pre ++ r2) =
                Op.foundAdd (flattenRecList [] (env.projFiles p.id)).length ::
                  ((processRecs env (sanitizeStr p.name) p.id p.branchId fs
                    (flattenRecList [] (env.projFiles p.id))).ops ++ [Op.projInc]) := by
              simpa using hr2
            injection hr3 with hz ht
            subst hz
            have hpre : pre <+:
                (processRecs env (sanitizeStr p.name) p.id p.branchId fs
                  (flattenRecList [] (env.projFiles p.id))).ops ++ [Op.projInc] :=
              ⟨r2, ht⟩
            have hb := processRecs_ops_bound env (sanitizeStr p.name) p.id p.branchId
              (flattenRecList [] (env.projFiles p.id)) fs
            rcases prefix_append_cases hpre with h2 | ⟨u, hu1, hu2⟩
            · have h3 := hb pre h2
              simp only [outcCount, foundSum]
              omega
            · have h3 := hb _ (List.prefix_refl _)
              subst hu1
              rcases prefix_singleton hu2 with rfl | rfl
              · simp only [outcCount, foundSum, List.append_nil]
                omega
              · simp only [outcCount, foundSum]
                rw [outcCount_append, foundSum_append]
                simp only [outcCount, foundSum]
                omega

theorem runProjects_ops_bal (env : OEnv) :
    ∀ (ps : List Proj) (fs : FS) (pre : List Op),
      pre <+: (runProjects env fs ps).ops → outcCount pre ≤ foundSum pre := by
  intro ps
  induction ps with
  | nil =>
    intro fs pre h
    rw [show (runProjects env fs []).ops = [] from rfl, List.prefix_nil] at h
    subst h
    simp [outcCount, foundSum]
  | cons p ps ih =>
    intro fs pre h
    have hops : (runProjects env fs (p :: ps)).ops =
        (processProject env fs p).ops ++
          (runProjects env (processProject env fs p).fs ps).ops := by
      simp [runProjects]
    rw [hops] at h
    rcases prefix_append_cases h with h1 | ⟨u, rfl, hu⟩
    · exact processProject_ops_bal env fs p pre h1
    · have h2 := processProject_ops_bal env fs p _ (List.prefix_refl _)
      have h3 := ih _ u hu
      rw [outcCount_append, foundSum_append]
      omega

theorem applyOps_spec :
    ∀ (t : List Op) (s : Stats),
      (applyOps s t).files_found = s.files_found + foundSum t ∧
      (applyOps s t).files_downloaded + (applyOps s t).files_skipped +
          (applyOps s t).download_errors =
        s.files_downloaded + s.files_skipped + s.download_errors + outcCount t := by
  intro t
  induction t with
  | nil => intro s; simp [applyOps, outcCount, foundSum]
  | cons op t ih =>
    intro s
    have h1 : applyOps s (op :: t) = applyOps (applyOp s op) t := rfl
    rw [h1]
    have h2 := ih (applyOp s op)
    cases op <;> simp only [applyOp, outcCount, foundSum] at h2 ⊢ <;> omega

/-- C2: in every state reachable within one run — every replay of a prefix
of the run's statistics-update trace from the all-zero initial stats — the
counters satisfy
`files_downloaded + files_skipped + download_errors ≤ files_found`: each
project adds its flattened record count to `files_found` before its files
are processed, and each `download_file` call adds exactly one outcome. -/
theorem C2_stats_invariant (env : OEnv) (fs : FS) (projects : List Proj)
    (tr : List Op) (h : tr <+: (backup_all_projects env fs projects).2.ops) :
    (applyOps initStats tr).files_downloaded + (applyOps initStats tr).files_skipped +
        (applyOps initStats tr).download_errors ≤
      (applyOps initStats tr).files_found := by
  have hb : outcCount tr ≤ foundSum tr :=
    runProjects_ops_bal env projects fs tr (by simpa [backup_all_projects] using h)
  have hs := applyOps_spec tr initStats
  have e1 : initStats.files_found = 0 := rfl
  have e2 : initStats.files_downloaded = 0 := rfl
  have e3 : initStats.files_skipped = 0 := rfl
  have e4 : initStats.download_errors = 0 := rfl
  omega

/-- C2 (witness): after the one-project run's `files_found` increment (a
genuine trace prefix), the inequality holds at the replayed state. -/
theorem C2_witness :
    ([Op.foundAdd 1] <+: (backup_all_projects c2wEnv [] c2wProjs).2.ops) ∧
      (applyOps initStats [Op.foundAdd 1]).files_downloaded +
          (applyOps initStats [Op.foundAdd 1]).files_skipped +
          (applyOps initStats [Op.foundAdd 1]).download_errors ≤
        (applyOps initStats [Op.foundAdd 1]).files_found := by
  have hops : (backup_all_projects c2wEnv [] c2wProjs).2.ops =
      [Op.foundAdd 1, Op.dlInc, Op.bytesAdd 4, Op.projInc] := by
    simp [backup_all_projects, runProjects, processProject, process_files_structure,
      processRecs, download_file, flattenRecList, c2wEnv, c2wProjs,
      sanitizeStr, sanitize_filename, truncate255, pyStrip, subIllegal, splitext,
      lastIdx, lastIdxAux, pySliceTo, stripSet, illegalChar, sepChar,
      fsSet, fsErase, fsGet, netBytes]
  have hpre : [Op.foundAdd 1] <+: (backup_all_projects c2wEnv [] c2wProjs).2.ops := by
    rw [hops]
    exact ⟨[Op.dlInc, Op.bytesAdd 4, Op.projInc], rfl⟩
  exact ⟨hpre, C2_stats_invariant c2wEnv [] c2wProjs [Op.foundAdd 1] hpre⟩

end BildBackup
